import Mathlib

/-!
Verification of the MemoryDB benchmarking adapter
(`vectordb_bench/backend/clients/memorydb/memorydb.py`).

The development shallowly embeds the adapter's pure algorithmic content:
list partitioning for the ingestion workers, the per-worker ingestion
protocol and its count aggregation, the polling convergence barrier,
idempotent index provisioning, connection-pool selection, and the
KNN query-string builder.  External effects (network commands, sleeps,
exceptions raised by the redis client) are modelled by explicit oracles
and result values.
-/

namespace MemoryDB

/-! ### Python list slicing

`lst[start:stop]` for `0 ≤ start ≤ stop` is drop-then-take; indices past
the end of the list are clamped, exactly as `List.drop`/`List.take` clamp. -/

/-- Python slice `lst[start:stop]` (nonnegative indices). -/
def pySlice {α : Type} (lst : List α) (start stop : Nat) : List α :=
  (lst.drop start).take (stop - start)

/-! ### `split_list_into_parts` (memorydb.py lines 214-223)

    base_size = len(lst) // num_parts
    remainder = len(lst) % num_parts
    sizes = [base_size + 1 if i < remainder else base_size for i in range(num_parts)]
    result = []
    index = 0
    for size in sizes:
        result.append(lst[index:index + size])
        index += size
    return result
-/

/-- The `sizes` list comprehension of `split_list_into_parts`. -/
def splitSizes (len num_parts : Nat) : List Nat :=
  (List.range num_parts).map
    (fun i => if i < len % num_parts then len / num_parts + 1 else len / num_parts)

/-- `split_list_into_parts(lst, num_parts)`: builds `sizes`, then runs the
`for size in sizes` loop carrying `(result, index)`. -/
def split_list_into_parts {α : Type} (lst : List α) (num_parts : Nat) : List (List α) :=
  let sizes := splitSizes lst.length num_parts
  (sizes.foldl
    (fun acc size => (acc.1 ++ [pySlice lst acc.2 (acc.2 + size)], acc.2 + size))
    (([] : List (List α)), 0)).1

/-- Recursive description of the slicing loop: contiguous slices of the given
sizes starting at `idx`. -/
def takeSlices {α : Type} (lst : List α) (idx : Nat) : List Nat → List (List α)
  | [] => []
  | s :: rest => pySlice lst idx (idx + s) :: takeSlices lst (idx + s) rest

theorem foldl_slices_eq_takeSlices {α : Type} (lst : List α) (sizes : List Nat)
    (acc : List (List α)) (idx : Nat) :
    (sizes.foldl
      (fun acc size => (acc.1 ++ [pySlice lst acc.2 (acc.2 + size)], acc.2 + size))
      (acc, idx)).1 = acc ++ takeSlices lst idx sizes := by
  induction sizes generalizing acc idx with
  | nil => simp [takeSlices]
  | cons s rest ih =>
      simp only [List.foldl_cons, takeSlices]
      rw [ih]
      simp

theorem split_eq_takeSlices {α : Type} (lst : List α) (num_parts : Nat) :
    split_list_into_parts lst num_parts =
      takeSlices lst 0 (splitSizes lst.length num_parts) := by
  unfold split_list_into_parts
  rw [foldl_slices_eq_takeSlices]
  simp

theorem takeSlices_length {α : Type} (lst : List α) (idx : Nat) (sizes : List Nat) :
    (takeSlices lst idx sizes).length = sizes.length := by
  induction sizes generalizing idx with
  | nil => rfl
  | cons s rest ih => simp [takeSlices, ih]

theorem pySlice_length {α : Type} (lst : List α) (idx s : Nat)
    (h : idx + s ≤ lst.length) : (pySlice lst idx (idx + s)).length = s := by
  simp only [pySlice, List.length_take, List.length_drop]
  omega

theorem takeSlices_map_length {α : Type} (lst : List α) (idx : Nat) (sizes : List Nat)
    (h : idx + sizes.sum ≤ lst.length) :
    (takeSlices lst idx sizes).map List.length = sizes := by
  induction sizes generalizing idx with
  | nil => rfl
  | cons s rest ih =>
      simp only [List.sum_cons] at h
      simp only [takeSlices, List.map_cons]
      rw [pySlice_length lst idx s (by omega), ih (idx + s) (by omega)]

theorem takeSlices_flatten {α : Type} (lst : List α) (idx : Nat) (sizes : List Nat) :
    (takeSlices lst idx sizes).flatten = (lst.drop idx).take sizes.sum := by
  induction sizes generalizing idx with
  | nil => simp [takeSlices]
  | cons s rest ih =>
      simp only [takeSlices, List.flatten_cons, List.sum_cons, ih]
      rw [pySlice, Nat.add_sub_cancel_left, List.take_add, List.drop_drop]

theorem range_if_sum (q r b : Nat) :
    ((List.range q).map (fun i => if i < r then b + 1 else b)).sum = q * b + min r q := by
  induction q with
  | zero => simp
  | succ q ih =>
      rw [List.range_succ, List.map_append, List.sum_append, ih]
      by_cases h : q < r
      · simp only [List.map_cons, List.map_nil, if_pos h, List.sum_cons, List.sum_nil]
        have : min r (q + 1) = q + 1 := by omega
        rw [this]
        have : min r q = q := by omega
        rw [this]; ring
      · simp only [List.map_cons, List.map_nil, if_neg h, List.sum_cons, List.sum_nil]
        have h1 : min r (q + 1) = r := by omega
        have h2 : min r q = r := by omega
        rw [h1, h2]; ring

theorem splitSizes_sum (len num_parts : Nat) (h : 1 ≤ num_parts) :
    (splitSizes len num_parts).sum = len := by
  unfold splitSizes
  rw [range_if_sum]
  have hlt : len % num_parts < num_parts := Nat.mod_lt _ (by omega)
  have : min (len % num_parts) num_parts = len % num_parts := by omega
  rw [this]
  have := Nat.div_add_mod len num_parts
  omega

theorem splitSizes_length (len num_parts : Nat) :
    (splitSizes len num_parts).length = num_parts := by
  simp [splitSizes]

theorem splitSizes_getD (len num_parts i : Nat) (h : i < num_parts) :
    (splitSizes len num_parts).getD i 0 =
      if i < len % num_parts then len / num_parts + 1 else len / num_parts := by
  unfold splitSizes
  rw [List.getD_eq_getElem _ _ (by simpa [splitSizes] using h)]
  simp [h]

/-- Core structural facts about `split_list_into_parts`. -/
theorem split_list_into_parts_core {α : Type} (lst : List α) (p : Nat) (hp : 1 ≤ p) :
    (split_list_into_parts lst p).length = p ∧
    (split_list_into_parts lst p).map List.length = splitSizes lst.length p ∧
    (split_list_into_parts lst p).flatten = lst := by
  rw [split_eq_takeSlices]
  refine ⟨?_, ?_, ?_⟩
  · rw [takeSlices_length, splitSizes_length]
  · exact takeSlices_map_length lst 0 _ (by rw [splitSizes_sum _ _ hp]; simp)
  · rw [takeSlices_flatten, splitSizes_sum _ _ hp]
    simp

theorem getD_map_length {α : Type} (l : List (List α)) (i : Nat) (h : i < l.length) :
    (l.map List.length).getD i 0 = (l.getD i []).length := by
  rw [List.getD_eq_getElem _ _ (by simpa using h), List.getD_eq_getElem _ _ h,
    List.getElem_map]

/-- Length of the `i`-th slice produced by `split_list_into_parts`. -/
theorem split_getD_length {α : Type} (lst : List α) (p i : Nat) (hp : 1 ≤ p)
    (hi : i < p) :
    ((split_list_into_parts lst p).getD i []).length =
      if i < lst.length % p then lst.length / p + 1 else lst.length / p := by
  obtain ⟨hlen, hmap, -⟩ := split_list_into_parts_core lst p hp
  have h := getD_map_length (split_list_into_parts lst p) i (by rw [hlen]; exact hi)
  rw [hmap, splitSizes_getD _ _ _ hi] at h
  exact h.symm

/-- C3 as stated: `num_parts` slices, lengths summing to `n`, the first
`n % num_parts` slices one element longer, pairwise length difference at
most 1, and in-order concatenation equal to the input. -/
def SplitClaim {α : Type} (lst : List α) (p : Nat) : Prop :=
  (split_list_into_parts lst p).length = p ∧
  ((split_list_into_parts lst p).map List.length).sum = lst.length ∧
  (∀ i, i < p → ((split_list_into_parts lst p).getD i []).length =
      if i < lst.length % p then lst.length / p + 1 else lst.length / p) ∧
  (∀ i j, i < p → j < p →
      ((split_list_into_parts lst p).getD i []).length ≤
        ((split_list_into_parts lst p).getD j []).length + 1) ∧
  (split_list_into_parts lst p).flatten = lst

/-- C3: for every list and every `num_parts ≥ 1`, `split_list_into_parts`
returns exactly `num_parts` contiguous slices whose lengths sum to the input
length, whose lengths pairwise differ by at most 1, where the first
`n % num_parts` slices have one extra element, and whose in-order
concatenation equals the original list. -/
theorem split_list_into_parts_claim {α : Type} (lst : List α) (p : Nat)
    (hp : 1 ≤ p) : SplitClaim lst p := by
  obtain ⟨hlen, hmap, hflat⟩ := split_list_into_parts_core lst p hp
  refine ⟨hlen, ?_, fun i hi => split_getD_length lst p i hp hi, ?_, hflat⟩
  · rw [hmap, splitSizes_sum _ _ hp]
  · intro i j hi hj
    rw [split_getD_length lst p i hp hi, split_getD_length lst p j hp hj]
    split_ifs <;> omega

/-- Witness for C3 at a concrete input. -/
theorem split_list_into_parts_claim_witness :
    1 ≤ 2 ∧ SplitClaim [10, 20, 30, 40, 50] 2 :=
  ⟨by decide, split_list_into_parts_claim [10, 20, 30, 40, 50] 2 (by decide)⟩

/-! ### Batch ingestion (memorydb.py lines 186-253)

`insert_embedding_batch` streams pipelined `HSET` commands for one slice and
puts the count it attempted on `result_queue`; any exception is caught by the
bare `except`, printed, and turned into a `0` report.  Note the count is read
from the loop variable after the loop (`result_len = i + 1`): when the
worker's slice is empty the loop body never runs, `i` is unbound, and the
read raises `NameError`, which the same `except` turns into a `0` report.
`insert_embeddings` splits `embeddings` and `metadata` into
`self.ingestion_thread_count` parts, runs one worker per part, sums the
queued reports and returns `(result_len, None)`. -/

/-- The value of the loop variable `i` after `for i, embedding in
enumerate(embeddings)`: `none` when the list is empty (the loop body never
ran and `i` is unbound), otherwise the last index `len - 1`. -/
def finalLoopIndex {α : Type} : List α → Option Nat
  | [] => none
  | _ :: tl => some tl.length

/-- Observable outcome of one `insert_embedding_batch` worker: the slice it
was assigned, whether the bare `except` handler ran, and the count it put on
`result_queue`. -/
structure WorkerRun (α : Type) where
  assigned : List α
  raised : Bool
  reported : Nat
deriving DecidableEq

/-- `insert_embedding_batch(conn, embeddings, metadata, result_queue)`
(lines 186-212).  `pipelineError` is an oracle for the redis pipeline
raising on any `hset`/`execute` of this slice.  Absent an external error,
reading `metadata[i]` raises `IndexError` when `metadata` is shorter than
`embeddings`, and `result_len = i + 1` raises `NameError` when `embeddings`
is empty; every exception reaches the bare `except`, which reports `0`. -/
def insert_embedding_batch {α β : Type} (pipelineError : Bool)
    (embeddings : List α) (metadata : List β) : WorkerRun α :=
  if pipelineError then ⟨embeddings, true, 0⟩
  else if metadata.length < embeddings.length then ⟨embeddings, true, 0⟩
  else
    match finalLoopIndex embeddings with
    | none => ⟨embeddings, true, 0⟩
    | some i => ⟨embeddings, false, i + 1⟩

/-- The runs of the `thread_count` workers spawned by `insert_embeddings`
(lines 241-247): worker `i` receives `embedding_parts[i]` and
`metadata_parts[i]`. -/
def workerRuns {α β : Type} (pipelineError : Nat → Bool)
    (embeddings : List α) (metadata : List β) (thread_count : Nat) :
    List (WorkerRun α) :=
  let embedding_parts := split_list_into_parts embeddings thread_count
  let metadata_parts := split_list_into_parts metadata thread_count
  (List.range thread_count).map
    (fun i => insert_embedding_batch (pipelineError i)
      (embedding_parts.getD i []) (metadata_parts.getD i []))

/-- Exceptions observable from `insert_embeddings` itself. -/
inductive PyError : Type
  | zeroDivision
deriving DecidableEq

/-- `insert_embeddings(embeddings, metadata)` (lines 225-253): splits both
lists into `thread_count` parts, runs one worker per part, drains
`result_queue` summing the reported counts, and returns `(result_len, None)`.
With `thread_count = 0` the partitioning raises `ZeroDivisionError`, caught
by the outer `except`, which returns `(0, e)`. -/
def insert_embeddings {α β : Type} (pipelineError : Nat → Bool)
    (embeddings : List α) (metadata : List β) (thread_count : Nat) :
    Nat × Option PyError :=
  if thread_count = 0 then (0, some PyError.zeroDivision)
  else
    (((workerRuns pipelineError embeddings metadata thread_count).map
        (fun r => r.reported)).sum, none)

theorem batch_assigned {α β : Type} (p : Bool) (e : List α) (m : List β) :
    (insert_embedding_batch p e m).assigned = e := by
  unfold insert_embedding_batch
  split_ifs <;> first | rfl | (cases e <;> rfl)

theorem batch_raised_reported_zero {α β : Type} (p : Bool) (e : List α)
    (m : List β) (h : (insert_embedding_batch p e m).raised = true) :
    (insert_embedding_batch p e m).reported = 0 := by
  unfold insert_embedding_batch at h ⊢
  split_ifs at h ⊢ with h1 h2
  · rfl
  · rfl
  · cases e with
    | nil => rfl
    | cons a tl => simp [finalLoopIndex] at h

theorem batch_empty {α β : Type} (p : Bool) (m : List β) :
    insert_embedding_batch p ([] : List α) m = ⟨[], true, 0⟩ := by
  unfold insert_embedding_batch
  split_ifs <;> rfl

/-- With enough metadata, a worker's outcome is decided by the error oracle
and whether its slice is empty. -/
theorem batch_run_eq {α β : Type} (p : Bool) (e : List α) (m : List β)
    (h : e.length ≤ m.length) :
    insert_embedding_batch p e m =
      if p then ⟨e, true, 0⟩
      else if e.isEmpty then ⟨e, true, 0⟩
      else ⟨e, false, e.length⟩ := by
  unfold insert_embedding_batch
  have hm : ¬ m.length < e.length := by omega
  cases p with
  | true => rfl
  | false =>
      simp only [Bool.false_eq_true, if_false, if_neg hm]
      cases e with
      | nil => rfl
      | cons a tl => simp [finalLoopIndex]

theorem range_map_getD {α : Type} (l : List α) (d : α) :
    (List.range l.length).map (fun i => l.getD i d) = l := by
  apply List.ext_getElem
  · simp
  · intro i h1 h2
    simp only [List.getElem_map, List.getElem_range]
    exact List.getD_eq_getElem l d h2

theorem sum_map_le_sum {ι : Type} (l : List ι) (f g : ι → Nat)
    (h : ∀ i ∈ l, f i ≤ g i) : (l.map f).sum ≤ (l.map g).sum := by
  induction l with
  | nil => simp
  | cons a t ih =>
      simp only [List.map_cons, List.sum_cons]
      have h1 := h a (List.mem_cons_self a t)
      have h2 := ih (fun i hi => h i (List.mem_cons_of_mem a hi))
      omega

theorem sum_map_eq_iff {ι : Type} (l : List ι) (f g : ι → Nat)
    (h : ∀ i ∈ l, f i ≤ g i) :
    (l.map f).sum = (l.map g).sum ↔ ∀ i ∈ l, f i = g i := by
  induction l with
  | nil => simp
  | cons a t ih =>
      have ha := h a (List.mem_cons_self a t)
      have ht : ∀ i ∈ t, f i ≤ g i := fun i hi => h i (List.mem_cons_of_mem a hi)
      have hle := sum_map_le_sum t f g ht
      simp only [List.map_cons, List.sum_cons, List.mem_cons]
      constructor
      · intro he
        have h1 : f a = g a := by omega
        have h2 : (t.map f).sum = (t.map g).sum := by omega
        intro i hi
        rcases hi with rfl | hi
        · exact h1
        · exact (ih ht).1 h2 i hi
      · intro hall
        rw [hall a (Or.inl rfl), (ih ht).2 (fun i hi => hall i (Or.inr hi))]

theorem parts_len_eq {α β : Type} (emb : List α) (md : List β) (tc i : Nat)
    (hlen : emb.length = md.length) (htc : 1 ≤ tc) (hi : i < tc) :
    ((split_list_into_parts emb tc).getD i []).length =
      ((split_list_into_parts md tc).getD i []).length := by
  rw [split_getD_length emb tc i htc hi, split_getD_length md tc i htc hi, hlen]

theorem workerRuns_eq_map {α β : Type} (pe : Nat → Bool) (emb : List α)
    (md : List β) (tc : Nat) :
    workerRuns pe emb md tc = (List.range tc).map
      (fun i => insert_embedding_batch (pe i)
        ((split_list_into_parts emb tc).getD i [])
        ((split_list_into_parts md tc).getD i [])) := rfl

theorem workerRuns_forall {α β : Type} (pe : Nat → Bool) (emb : List α)
    (md : List β) (tc : Nat) (P : WorkerRun α → Prop) :
    (∀ r ∈ workerRuns pe emb md tc, P r) ↔
      ∀ i, i < tc → P (insert_embedding_batch (pe i)
        ((split_list_into_parts emb tc).getD i [])
        ((split_list_into_parts md tc).getD i [])) := by
  rw [workerRuns_eq_map]
  simp

theorem insert_total_eq_sum {α β : Type} (pe : Nat → Bool) (emb : List α)
    (md : List β) (tc : Nat) (htc : 1 ≤ tc) :
    (insert_embeddings pe emb md tc).1 =
      ((List.range tc).map (fun i =>
        (insert_embedding_batch (pe i)
          ((split_list_into_parts emb tc).getD i [])
          ((split_list_into_parts md tc).getD i [])).reported)).sum := by
  unfold insert_embeddings
  rw [if_neg (by omega), workerRuns_eq_map, List.map_map]
  rfl

theorem range_map_parts_length_sum {α : Type} (lst : List α) (tc : Nat)
    (htc : 1 ≤ tc) :
    ((List.range tc).map
      (fun i => ((split_list_into_parts lst tc).getD i []).length)).sum
      = lst.length := by
  obtain ⟨hlen, hmap, -⟩ := split_list_into_parts_core lst tc htc
  set P := split_list_into_parts lst tc with hP
  have h1 : (List.range tc).map (fun i => P.getD i []) = P := by
    rw [← hlen]
    exact range_map_getD _ []
  have h2 : (List.range tc).map (fun i => (P.getD i []).length)
      = ((List.range tc).map (fun i => P.getD i [])).map List.length := by
    rw [List.map_map]
    rfl
  rw [h2, h1, hmap, splitSizes_sum _ _ htc]

theorem run_reported_le {α β : Type} (p : Bool) (e : List α) (m : List β)
    (h : e.length ≤ m.length) :
    (insert_embedding_batch p e m).reported ≤ e.length := by
  rw [batch_run_eq p e m h]
  split_ifs <;> simp

theorem run_reported_eq_iff {α β : Type} (p : Bool) (e : List α) (m : List β)
    (h : e.length ≤ m.length) :
    (insert_embedding_batch p e m).reported = e.length ↔ (e ≠ [] → p = false) := by
  rw [batch_run_eq p e m h]
  cases p <;> cases e <;> simp

theorem run_raised_iff {α β : Type} (p : Bool) (e : List α) (m : List β)
    (h : e.length ≤ m.length) :
    ((insert_embedding_batch p e m).assigned ≠ [] →
        (insert_embedding_batch p e m).raised = false)
      ↔ (e ≠ [] → p = false) := by
  rw [batch_run_eq p e m h]
  cases p <;> cases e <;> simp

theorem insert_total_le_lemma {α β : Type} (pe : Nat → Bool) (emb : List α)
    (md : List β) (tc : Nat) (hlen : emb.length = md.length) (htc : 1 ≤ tc) :
    (insert_embeddings pe emb md tc).1 ≤ emb.length := by
  rw [insert_total_eq_sum pe emb md tc htc]
  refine le_trans (sum_map_le_sum _ _
    (fun i => ((split_list_into_parts emb tc).getD i []).length) ?_) ?_
  · intro i hi
    exact run_reported_le _ _ _
      (le_of_eq (parts_len_eq emb md tc i hlen htc (List.mem_range.mp hi)))
  · rw [range_map_parts_length_sum emb tc htc]

theorem insert_total_eq_iff_lemma {α β : Type} (pe : Nat → Bool) (emb : List α)
    (md : List β) (tc : Nat) (hlen : emb.length = md.length) (htc : 1 ≤ tc) :
    (insert_embeddings pe emb md tc).1 = emb.length ↔
      ∀ r ∈ workerRuns pe emb md tc, r.assigned ≠ [] → r.raised = false := by
  have hml : ∀ i, i < tc →
      ((split_list_into_parts emb tc).getD i []).length ≤
        ((split_list_into_parts md tc).getD i []).length :=
    fun i hi => le_of_eq (parts_len_eq emb md tc i hlen htc hi)
  rw [insert_total_eq_sum pe emb md tc htc, workerRuns_forall]
  conv_lhs => rw [← range_map_parts_length_sum emb tc htc]
  rw [sum_map_eq_iff _ _ _
    (fun i hi => run_reported_le _ _ _ (hml i (List.mem_range.mp hi)))]
  constructor
  · intro h i hi
    exact (run_raised_iff _ _ _ (hml i hi)).mpr
      ((run_reported_eq_iff _ _ _ (hml i hi)).mp (h i (List.mem_range.mpr hi)))
  · intro h i hi
    have hi' := List.mem_range.mp hi
    exact (run_reported_eq_iff _ _ _ (hml i hi')).mpr
      ((run_raised_iff _ _ _ (hml i hi')).mp (h i hi'))

/-- C1 exactly as stated: total ≤ input size, and total equals the input
size iff no worker raised an error. -/
def InsertTotalClaim {α β : Type} (pe : Nat → Bool) (emb : List α)
    (md : List β) (tc : Nat) : Prop :=
  (insert_embeddings pe emb md tc).1 ≤ emb.length ∧
  ((insert_embeddings pe emb md tc).1 = emb.length ↔
    ∀ r ∈ workerRuns pe emb md tc, r.raised = false)

/-- C1 counterexample: one record, two workers, no external errors.  The
second worker's slice is empty, so `result_len = i + 1` raises `NameError`
and it reports `0`; the total still equals the input size `1`, refuting
"equality holds iff no worker raised an error". -/
theorem insert_total_claim_cex :
    ¬ InsertTotalClaim (fun _ => false) ([0] : List Nat) ([0] : List Nat) 2 := by
  unfold InsertTotalClaim
  decide

/-- C1 amended: total ≤ input size, and total equals the input size iff no
worker that was assigned a nonempty slice raised an error.  (A worker with
an empty slice always raises `NameError` yet contributes the correct `0`.) -/
def InsertTotalAmended {α β : Type} (pe : Nat → Bool) (emb : List α)
    (md : List β) (tc : Nat) : Prop :=
  (insert_embeddings pe emb md tc).1 ≤ emb.length ∧
  ((insert_embeddings pe emb md tc).1 = emb.length ↔
    ∀ r ∈ workerRuns pe emb md tc, r.assigned ≠ [] → r.raised = false)

/-- C1 (amended): for matching-length record lists and `worker_count ≥ 1`,
the total reported by `insert_embeddings` is at most the number of input
records, with equality iff no worker assigned a nonempty slice raised. -/
theorem insert_total_amended {α β : Type} (pe : Nat → Bool) (emb : List α)
    (md : List β) (tc : Nat) (hlen : emb.length = md.length) (htc : 1 ≤ tc) :
    InsertTotalAmended pe emb md tc :=
  ⟨insert_total_le_lemma pe emb md tc hlen htc,
    insert_total_eq_iff_lemma pe emb md tc hlen htc⟩

/-- Witness for the amended C1 at a concrete input. -/
theorem insert_total_amended_witness :
    ([1, 2, 3] : List Nat).length = ([4, 5, 6] : List Nat).length ∧ 1 ≤ 2 ∧
      InsertTotalAmended (fun _ => false) ([1, 2, 3] : List Nat)
        ([4, 5, 6] : List Nat) 2 :=
  ⟨by decide, by decide,
    insert_total_amended (fun _ => false) [1, 2, 3] [4, 5, 6] 2
      (by decide) (by decide)⟩

/-- C2: a worker that raises reports exactly zero, and `insert_embeddings`
still returns a `(count, None)` success result: the error is swallowed. -/
theorem insert_error_swallowed {α β : Type} (pe : Nat → Bool) (emb : List α)
    (md : List β) (tc : Nat) (htc : 1 ≤ tc) :
    (insert_embeddings pe emb md tc).2 = none ∧
    ∀ r ∈ workerRuns pe emb md tc, r.raised = true → r.reported = 0 := by
  constructor
  · unfold insert_embeddings
    rw [if_neg (by omega)]
  · rw [workerRuns_forall]
    exact fun i hi h => batch_raised_reported_zero _ _ _ h

/-- Witness for C2 at a concrete input (the single worker's pipeline
raises; the call still returns `(0, None)`). -/
theorem insert_error_swallowed_witness :
    1 ≤ 1 ∧
    ((insert_embeddings (fun _ => true) ([3] : List Nat) ([7] : List Nat) 1).2
        = none ∧
      ∀ r ∈ workerRuns (fun _ => true) ([3] : List Nat) ([7] : List Nat) 1,
        r.raised = true → r.reported = 0) :=
  ⟨by decide, insert_error_swallowed (fun _ => true) [3] [7] 1 (by decide)⟩

/-- C9: with more workers than records and no external errors, every
worker with an empty slice takes the `except` path (`NameError` from the
unbound loop variable) and reports `0`; such a worker exists, yet the
total equals the input size and the returned error is `None`. -/
theorem empty_slice_worker_claim {α β : Type} (emb : List α) (md : List β)
    (tc : Nat) (hlen : emb.length = md.length) (h : emb.length < tc) :
    (∀ r ∈ workerRuns (fun _ => false) emb md tc,
        r.assigned = [] → r.raised = true ∧ r.reported = 0) ∧
    (∃ r ∈ workerRuns (fun _ => false) emb md tc, r.raised = true) ∧
    (insert_embeddings (fun _ => false) emb md tc).1 = emb.length ∧
    (insert_embeddings (fun _ => false) emb md tc).2 = none := by
  have htc : 1 ≤ tc := by omega
  have hml : ∀ i, i < tc →
      ((split_list_into_parts emb tc).getD i []).length ≤
        ((split_list_into_parts md tc).getD i []).length :=
    fun i hi => le_of_eq (parts_len_eq emb md tc i hlen htc hi)
  refine ⟨?_, ?_, ?_, ?_⟩
  · rw [workerRuns_forall]
    intro i hi hass
    rw [batch_assigned] at hass
    rw [hass, batch_empty]
    exact ⟨rfl, rfl⟩
  · have hlast : (split_list_into_parts emb tc).getD (tc - 1) [] = [] := by
      have hmod : emb.length % tc = emb.length := Nat.mod_eq_of_lt h
      have := split_getD_length emb tc (tc - 1) htc (by omega)
      rw [hmod, if_neg (by omega), Nat.div_eq_of_lt h] at this
      exact List.length_eq_zero.mp this
    refine ⟨insert_embedding_batch false
      ((split_list_into_parts emb tc).getD (tc - 1) [])
      ((split_list_into_parts md tc).getD (tc - 1) []), ?_, ?_⟩
    · rw [workerRuns_eq_map]
      exact List.mem_map.mpr ⟨tc - 1, List.mem_range.mpr (by omega), rfl⟩
    · rw [hlast, batch_empty]
  · refine (insert_total_eq_iff_lemma _ emb md tc hlen htc).mpr ?_
    rw [workerRuns_forall]
    intro i hi
    exact (run_raised_iff _ _ _ (hml i hi)).mpr (fun _ => rfl)
  · unfold insert_embeddings
    rw [if_neg (by omega)]

/-- Witness for C9 at a concrete input. -/
theorem empty_slice_worker_claim_witness :
    ([5] : List Nat).length = ([6] : List Nat).length ∧
    ([5] : List Nat).length < 2 ∧
    ((∀ r ∈ workerRuns (fun _ => false) ([5] : List Nat) ([6] : List Nat) 2,
        r.assigned = [] → r.raised = true ∧ r.reported = 0) ∧
      (∃ r ∈ workerRuns (fun _ => false) ([5] : List Nat) ([6] : List Nat) 2,
        r.raised = true) ∧
      (insert_embeddings (fun _ => false) ([5] : List Nat) ([6] : List Nat) 2).1
          = ([5] : List Nat).length ∧
      (insert_embeddings (fun _ => false) ([5] : List Nat) ([6] : List Nat) 2).2
          = none) :=
  ⟨by decide, by decide,
    empty_slice_worker_claim [5] [6] 2 (by decide) (by decide)⟩

/-! ### Convergence barrier `wait_until` (memorydb.py lines 269-273)

    def wait_until(self, condition, interval=5, message="...", *args):
        while not condition(*args):
            time.sleep(interval)

Successive evaluations of the predicate are modelled by
`condition : Nat → Bool` (`condition t` is the value returned by the `t`-th
evaluation); each `time.sleep(interval)` is recorded in a trace.  The loop
has no attempt bound and no timeout, so the embedding carries explicit
fuel: `none` means the loop was still running after `fuel` iterations. -/

/-- Trace of a `wait_until` call that returned: the index of the first true
evaluation, the total number of predicate evaluations performed, and the
durations slept, in order, one between consecutive evaluations. -/
structure WaitTrace where
  firstTrue : Nat
  evaluations : Nat
  sleeps : List Nat
deriving DecidableEq

/-- The `while not condition(): time.sleep(interval)` loop, from the `k`-th
evaluation on, carrying the evaluations made and sleeps performed so far. -/
def wait_until_go (condition : Nat → Bool) (interval k evals : Nat)
    (slept : List Nat) : Nat → Option WaitTrace
  | 0 => none
  | fuel + 1 =>
      if condition k then some ⟨k, evals + 1, slept⟩
      else wait_until_go condition interval (k + 1) (evals + 1)
        (slept ++ [interval]) fuel

/-- `wait_until(condition, interval, message, *args)`: the polling loop.
The `message` argument is dead in the source (never read). -/
def wait_until (condition : Nat → Bool) (interval : Nat) (_message : String)
    (fuel : Nat) : Option WaitTrace :=
  wait_until_go condition interval 0 0 [] fuel

theorem wait_until_go_sound (c : Nat → Bool) (interval : Nat) :
    ∀ (fuel k evals : Nat) (slept : List Nat) (r : WaitTrace),
      wait_until_go c interval k evals slept fuel = some r →
      k ≤ r.firstTrue ∧ c r.firstTrue = true ∧
      (∀ i, k ≤ i → i < r.firstTrue → c i = false) ∧
      r.evaluations = evals + (r.firstTrue - k) + 1 ∧
      r.sleeps = slept ++ List.replicate (r.firstTrue - k) interval := by
  intro fuel
  induction fuel with
  | zero =>
      intro k evals slept r h
      exact absurd h (by simp [wait_until_go])
  | succ fuel ih =>
      intro k evals slept r h
      cases hc : c k with
      | true =>
          simp only [wait_until_go, hc, if_true] at h
          obtain rfl : (⟨k, evals + 1, slept⟩ : WaitTrace) = r := Option.some.inj h
          refine ⟨le_refl k, hc, ?_, by simp, by simp⟩
          intro i h1 h2
          have h2' : i < k := h2
          omega
      | false =>
          simp only [wait_until_go, hc, Bool.false_eq_true, if_false] at h
          obtain ⟨h1, h2, h3, h4, h5⟩ := ih (k + 1) (evals + 1) (slept ++ [interval]) r h
          refine ⟨by omega, h2, ?_, by omega, ?_⟩
          · intro i hki hir
            rcases Nat.eq_or_lt_of_le hki with rfl | hlt
            · exact hc
            · exact h3 i hlt hir
          · rw [h5, List.append_assoc]
            have hsub : r.firstTrue - k = (r.firstTrue - (k + 1)) + 1 := by omega
            rw [hsub, List.replicate_succ, List.singleton_append]

theorem wait_until_go_complete (c : Nat → Bool) (interval m : Nat)
    (hm : c m = true) (hbefore : ∀ i, i < m → c i = false) :
    ∀ (fuel k evals : Nat) (slept : List Nat), k ≤ m → m - k < fuel →
      wait_until_go c interval k evals slept fuel =
        some ⟨m, evals + (m - k) + 1, slept ++ List.replicate (m - k) interval⟩ := by
  intro fuel
  induction fuel with
  | zero =>
      intro k evals slept hk hf
      omega
  | succ fuel ih =>
      intro k evals slept hk hf
      by_cases hkm : k = m
      · subst hkm
        simp only [wait_until_go, hm, if_true]
        simp
      · have hck : c k = false := hbefore k (by omega)
        simp only [wait_until_go, hck, Bool.false_eq_true, if_false]
        rw [ih (k + 1) (evals + 1) (slept ++ [interval]) (by omega) (by omega)]
        have hsub : m - k = (m - (k + 1)) + 1 := by omega
        congr 2
        · omega
        · rw [hsub, List.append_assoc, List.replicate_succ, List.singleton_append]

theorem wait_until_go_none (c : Nat → Bool) (interval : Nat)
    (hc : ∀ i, c i = false) :
    ∀ (fuel k evals : Nat) (slept : List Nat),
      wait_until_go c interval k evals slept fuel = none := by
  intro fuel
  induction fuel with
  | zero => intro k evals slept; rfl
  | succ fuel ih =>
      intro k evals slept
      simp only [wait_until_go, hc k, Bool.false_eq_true, if_false]
      exact ih _ _ _

/-- C4 as a predicate of the model: (1) whenever the loop returns, the
returned evaluation is the first true one; (2) a predicate false on its
first `m` evaluations and true thereafter yields exactly `m + 1`
evaluations with `m` sleeps of the given interval between consecutive
evaluations; (3) a predicate that is never true loops at every fuel bound
(no attempt limit, no timeout). -/
def WaitUntilClaim (condition : Nat → Bool) (interval m : Nat) : Prop :=
  (∀ (c : Nat → Bool) (msg : String) (fuel : Nat) (r : WaitTrace),
      wait_until c interval msg fuel = some r →
      c r.firstTrue = true ∧ ∀ i, i < r.firstTrue → c i = false) ∧
  (∀ (msg : String) (fuel : Nat), m < fuel →
      wait_until condition interval msg fuel =
        some ⟨m, m + 1, List.replicate m interval⟩) ∧
  (∀ (c : Nat → Bool), (∀ i, c i = false) →
      ∀ (msg : String) (fuel : Nat), wait_until c interval msg fuel = none)

/-- C4: `wait_until` never returns before its predicate first evaluates
true; for a predicate false on its first `m` evaluations and true
thereafter it performs exactly `m + 1` evaluations, sleeping the given
interval between consecutive evaluations; and there is no attempt bound or
timeout, so a never-true predicate blocks forever. -/
theorem wait_until_claim (condition : Nat → Bool) (interval m : Nat)
    (hf : ∀ i, i < m → condition i = false)
    (ht : ∀ i, m ≤ i → condition i = true) :
    WaitUntilClaim condition interval m := by
  refine ⟨?_, ?_, ?_⟩
  · intro c msg fuel r h
    obtain ⟨-, h2, h3, -, -⟩ := wait_until_go_sound c interval fuel 0 0 [] r h
    exact ⟨h2, fun i hi => h3 i (Nat.zero_le i) hi⟩
  · intro msg fuel hfuel
    have := wait_until_go_complete condition interval m (ht m (le_refl m)) hf
      fuel 0 0 [] (Nat.zero_le m) (by omega)
    simpa [wait_until] using this
  · intro c hc msg fuel
    exact wait_until_go_none c interval hc fuel 0 0 []

/-- Witness for C4 at a concrete predicate (false on evaluations 0 and 1,
true from evaluation 2 on) and interval 7. -/
theorem wait_until_claim_witness :
    (∀ i, i < 2 → (fun i => decide (2 ≤ i)) i = false) ∧
    (∀ i, 2 ≤ i → (fun i => decide (2 ≤ i)) i = true) ∧
    WaitUntilClaim (fun i => decide (2 ≤ i)) 7 2 :=
  ⟨by decide, fun i h => decide_eq_true h,
    wait_until_claim (fun i => decide (2 ≤ i)) 7 2 (by decide)
      (fun i h => decide_eq_true h)⟩

/-! ### Index provisioning `make_index` (memorydb.py lines 71-101)

    try:
        conn.ft(INDEX_NAME).info()
    except Exception as e:
        ... build vector_parameters / schema ...
        rs.create_index(schema, definition=definition)

The store state is whether the index exists; the probe
`conn.ft(INDEX_NAME).info()` raises index-not-found when it is absent, and
may raise any other error (oracle `envFail`) even when it exists.  The bare
`except Exception` treats every failure alike. -/

/-- Store state visible to `make_index`. -/
structure StoreState where
  indexExists : Bool
deriving DecidableEq

/-- Failure modes of the existence probe `conn.ft(INDEX_NAME).info()`. -/
inductive ProbeError : Type
  | indexNotFound
  | transient
deriving DecidableEq

/-- The existence probe: index-not-found when the index is absent; any
other failure (`envFail`) even when it exists; otherwise success. -/
def probe (envFail : Bool) (s : StoreState) : Except ProbeError Unit :=
  if s.indexExists = false then Except.error ProbeError.indexNotFound
  else if envFail then Except.error ProbeError.transient
  else Except.ok ()

/-- Result of one `make_index` call: the store afterwards, and whether an
`FT.CREATE` command was issued. -/
structure MakeIndexResult where
  state : StoreState
  createIssued : Bool
deriving DecidableEq

/-- `make_index(vector_dimensions, conn)`: probes the index; on any
exception (bare `except Exception`) builds the schema and issues
`rs.create_index(...)`; on probe success, does nothing. -/
def make_index (envFail : Bool) (s : StoreState) : MakeIndexResult :=
  match probe envFail s with
  | Except.ok _ => ⟨s, false⟩
  | Except.error _ => ⟨⟨true⟩, true⟩

/-- Number of `FT.CREATE` commands issued by two successive `make_index`
calls against the same store (probe-failure oracles `e1`, `e2`). -/
def make_index_twice_creates (e1 e2 : Bool) (s : StoreState) : Nat :=
  (if (make_index e1 s).createIssued then 1 else 0) +
    (if (make_index e2 (make_index e1 s).state).createIssued then 1 else 0)

/-- C5 counterexample: against a store where the index already exists (and
with a reliable probe), calling `make_index` twice issues zero create
commands, not exactly one — "for every store state ... exactly one
create-index command" fails. -/
theorem make_index_claim_cex :
    make_index_twice_creates false false ⟨true⟩ = 0 ∧
      ¬ make_index_twice_creates false false ⟨true⟩ = 1 := by
  decide

/-- C5 (amended): with a reliable existence probe on the second call, two
`make_index` calls issue at most one create command whatever the initial
store state, and exactly one when the index does not initially exist: the
first call's probe fails (whatever the failure kind) and triggers
creation, and the second call's probe — the index now existing — succeeds,
so no create is issued.  Moreover any probe failure, not only
index-not-found, triggers creation. -/
theorem make_index_idempotent (s : StoreState) (e1 : Bool)
    (hs : s.indexExists = false) :
    make_index_twice_creates e1 false s = 1 ∧
    (make_index e1 s).createIssued = true ∧
    probe false (make_index e1 s).state = Except.ok () ∧
    (make_index false (make_index e1 s).state).createIssued = false ∧
    (∀ (e : Bool) (t : StoreState), make_index_twice_creates e false t ≤ 1) ∧
    (∀ (e : Bool) (t : StoreState) (err : ProbeError),
        probe e t = Except.error err → (make_index e t).createIssued = true) := by
  obtain ⟨b⟩ := s
  cases b with
  | true => exact absurd hs (by decide)
  | false =>
      refine ⟨?_, ?_, ?_, ?_, ?_, ?_⟩
      · cases e1 <;> decide
      · cases e1 <;> decide
      · cases e1 <;> rfl
      · cases e1 <;> decide
      · intro e t
        obtain ⟨b⟩ := t
        cases b <;> cases e <;> decide
      · intro e t err h
        unfold make_index
        rw [h]

/-- Witness for the amended C5 at a concrete input (index initially
absent, first probe failing with a non-index-not-found error). -/
theorem make_index_idempotent_witness :
    (⟨false⟩ : StoreState).indexExists = false ∧
    (make_index_twice_creates true false ⟨false⟩ = 1 ∧
      (make_index true ⟨false⟩).createIssued = true ∧
      probe false (make_index true ⟨false⟩).state = Except.ok () ∧
      (make_index false (make_index true ⟨false⟩).state).createIssued = false ∧
      (∀ (e : Bool) (t : StoreState), make_index_twice_creates e false t ≤ 1) ∧
      (∀ (e : Bool) (t : StoreState) (err : ProbeError),
          probe e t = Except.error err → (make_index e t).createIssued = true)) :=
  ⟨by decide, make_index_idempotent ⟨false⟩ true (by decide)⟩

/-! ### Hyperparameters in `vector_parameters` (memorydb.py lines 79-89)

    vector_parameters = {"TYPE": "FLOAT32", "DIM": vector_dimensions,
                         "DISTANCE_METRIC": index_param["metric"]}
    if index_param["m"]:
        vector_parameters["M"] = index_param["m"]
    if index_param["ef_construction"]:
        vector_parameters["EF_CONSTRUCTION"] = index_param["ef_construction"]
    if search_param["ef_runtime"]:
        vector_parameters["EF_RUNTIME"] = search_param["ef_runtime"]
-/

/-- Keys of the `vector_parameters` dict. -/
inductive ParamKey : Type
  | TYPE
  | DIM
  | DISTANCE_METRIC
  | M
  | EF_CONSTRUCTION
  | EF_RUNTIME
deriving DecidableEq

/-- Values of the `vector_parameters` dict. -/
inductive ParamValue : Type
  | str (s : String)
  | num (n : Nat)
deriving DecidableEq

/-- Python truthiness of an optional numeric configuration entry: `None`
and `0` are falsy. -/
def pyTruthy : Option Nat → Bool
  | none => false
  | some n => n != 0

/-- The `index_param()` fields read by `make_index`. -/
structure IndexParam where
  metric : String
  m : Option Nat
  ef_construction : Option Nat
deriving DecidableEq

/-- The `search_param()` fields read by `make_index`. -/
structure SearchParam where
  ef_runtime : Option Nat
deriving DecidableEq

/-- The `vector_parameters` dict: base entries, then `M`,
`EF_CONSTRUCTION`, `EF_RUNTIME`, each added only under the corresponding
`if ...:` truthiness guard. -/
def vector_parameters (vector_dimensions : Nat) (index_param : IndexParam)
    (search_param : SearchParam) : List (ParamKey × ParamValue) :=
  let ps := [(ParamKey.TYPE, ParamValue.str "FLOAT32"),
             (ParamKey.DIM, ParamValue.num vector_dimensions),
             (ParamKey.DISTANCE_METRIC, ParamValue.str index_param.metric)]
  let ps := if pyTruthy index_param.m
    then ps ++ [(ParamKey.M, ParamValue.num (index_param.m.getD 0))]
    else ps
  let ps := if pyTruthy index_param.ef_construction
    then ps ++ [(ParamKey.EF_CONSTRUCTION,
      ParamValue.num (index_param.ef_construction.getD 0))]
    else ps
  if pyTruthy search_param.ef_runtime
    then ps ++ [(ParamKey.EF_RUNTIME,
      ParamValue.num (search_param.ef_runtime.getD 0))]
    else ps

/-- C7: each of `M`, `EF_CONSTRUCTION`, `EF_RUNTIME` appears in the vector
field parameters iff its configured value is truthy (neither absent nor
zero), and then it carries exactly the configured value; a falsy
hyperparameter's key is absent entirely — no null/zero override is sent. -/
theorem hyperparams_iff_truthy (d : Nat) (ip : IndexParam) (sp : SearchParam) :
    (∀ v, (ParamKey.M, v) ∈ vector_parameters d ip sp ↔
        pyTruthy ip.m = true ∧ v = ParamValue.num (ip.m.getD 0)) ∧
    (∀ v, (ParamKey.EF_CONSTRUCTION, v) ∈ vector_parameters d ip sp ↔
        pyTruthy ip.ef_construction = true ∧
          v = ParamValue.num (ip.ef_construction.getD 0)) ∧
    (∀ v, (ParamKey.EF_RUNTIME, v) ∈ vector_parameters d ip sp ↔
        pyTruthy sp.ef_runtime = true ∧
          v = ParamValue.num (sp.ef_runtime.getD 0)) := by
  unfold vector_parameters
  cases hm : pyTruthy ip.m <;> cases hc : pyTruthy ip.ef_construction <;>
    cases hr : pyTruthy sp.ef_runtime <;> simp

/-! ### Connection pool selection (memorydb.py lines 149-157 and 241-243)

    def get_client_pool(self, **kwargs):
        if not self.db_config["cmd"]:
            return None
        else:
            return redis.connection.ConnectionPool(host=..., port=..., db=0)

`cmd` ("Cluster Mode Disabled") is true for a standalone deployment and
false for a sharded (cluster) one.  Each ingestion worker then runs
`conn = redis.Redis(connection_pool=self.conn_pool)` (line 242): it draws
from the pool when one exists, and opens its own direct connection when
`connection_pool` is `None`. -/

/-- The configuration fields read by the pool path. -/
structure DBConfig where
  cmd : Bool
  host : String
  port : Nat
deriving DecidableEq

/-- A `redis.connection.ConnectionPool(host, port, db=0)`. -/
structure ConnectionPool where
  host : String
  port : Nat
  db : Nat
deriving DecidableEq

/-- `get_client_pool`: `None` when cluster mode is enabled (`not cmd`),
else a single-endpoint connection pool. -/
def get_client_pool (cfg : DBConfig) : Option ConnectionPool :=
  if cfg.cmd = false then none
  else some ⟨cfg.host, cfg.port, 0⟩

/-- The connection used by one ingestion worker. -/
inductive WorkerConn : Type
  | fromPool (p : ConnectionPool)
  | direct
deriving DecidableEq

/-- `redis.Redis(connection_pool=pool)` as seen by a worker: pooled when a
pool is supplied, otherwise a fresh direct connection of its own. -/
def worker_connection (pool : Option ConnectionPool) : WorkerConn :=
  match pool with
  | some p => WorkerConn.fromPool p
  | none => WorkerConn.direct

/-- C8 counterexample: in a sharded deployment (`cmd = false`, cluster mode
enabled) `get_client_pool` returns `None`, refuting "returns a pool exactly
when the deployment is sharded". -/
theorem pool_sharded_claim_cex :
    ¬ ((get_client_pool ⟨false, "localhost", 6379⟩).isSome = true ↔
        (⟨false, "localhost", 6379⟩ : DBConfig).cmd = false) := by
  decide

/-- C8 (amended): `get_client_pool` returns a pool exactly when the
deployment is standalone (`cmd = true`); in sharded mode it returns `None`
and each insert worker's `redis.Redis(connection_pool=None)` opens its own
direct connection, while in standalone mode workers draw from the pool. -/
theorem pool_standalone_only (cfg : DBConfig) :
    ((get_client_pool cfg).isSome = true ↔ cfg.cmd = true) ∧
    (cfg.cmd = false →
      worker_connection (get_client_pool cfg) = WorkerConn.direct) ∧
    (cfg.cmd = true →
      worker_connection (get_client_pool cfg) =
        WorkerConn.fromPool ⟨cfg.host, cfg.port, 0⟩) := by
  obtain ⟨cmd, host, port⟩ := cfg
  cases cmd <;> simp [get_client_pool, worker_connection]

/-! ### Query construction `search_embedding` (memorydb.py lines 283-307)

    query_obj = Query(f"*=>[KNN {k} @vector $vec {self.ef_runtime_str}]").paging(0, k)
    if filters:
        metadata_value = filters.get("metadata")[2:]
        query_obj = Query(f"@metadata:[{metadata_value} +inf]=>[KNN {k} @vector $vec {self.ef_runtime_str}]").paging(0, k)

Strings are modelled as character lists; only the query string and the
paging window are relevant to the claims. -/

/-- A constructed `Query(...)`: its query string and `.paging(offset, num)`
window. -/
structure BuiltQuery where
  query_string : List Char
  offset : Nat
  num : Nat
deriving DecidableEq

/-- A truthy `filters` argument: the value stored under key `"metadata"`
(e.g. `">=10000"`). -/
structure Filters where
  metadata : List Char
deriving DecidableEq

/-- The query built by `search_embedding`, as a function of `k`, the
configured `ef_runtime_str`, and the optional scalar filter. -/
def search_embedding_query (k : Nat) (ef_runtime_str : List Char)
    (filters : Option Filters) : BuiltQuery :=
  match filters with
  | none =>
      ⟨"*=>[KNN ".toList ++ (toString k).toList ++ " @vector $vec ".toList
        ++ ef_runtime_str ++ "]".toList, 0, k⟩
  | some f =>
      let metadata_value := f.metadata.drop 2
      ⟨"@metadata:[".toList ++ metadata_value ++ " +inf]=>[KNN ".toList
        ++ (toString k).toList ++ " @vector $vec ".toList
        ++ ef_runtime_str ++ "]".toList, 0, k⟩

/-- C6: for a filter of the exact form `">=" ++ T`, the built query is the
hybrid form `@metadata:[T +inf]=>[KNN k @vector $vec ef]` — a range
pre-filter to `[T, +inf)` on the numeric `metadata` field attached in
front of the KNN clause requesting `k` results — paged from offset 0 with
page size `k`. -/
theorem search_filter_hybrid_query (k : Nat) (ef T : List Char) :
    search_embedding_query k ef (some ⟨'>' :: '=' :: T⟩) =
      ⟨"@metadata:[".toList ++ T ++ " +inf]=>[KNN ".toList
        ++ (toString k).toList ++ " @vector $vec ".toList ++ ef ++ "]".toList,
        0, k⟩ := rfl

/-- C10: whatever the supplied filter value is, the threshold spliced into
the query string is exactly that value with its first two characters
removed — the slice `[2:]` is taken blindly, so only a value formatted
exactly `">=T"` (no space) yields threshold `T`. -/
theorem search_filter_drops_two_chars (k : Nat) (ef v : List Char) :
    search_embedding_query k ef (some ⟨v⟩) =
      ⟨"@metadata:[".toList ++ v.drop 2 ++ " +inf]=>[KNN ".toList
        ++ (toString k).toList ++ " @vector $vec ".toList ++ ef ++ "]".toList,
        0, k⟩ := rfl

end MemoryDB
